import Mathlib

/-!
Shallow embedding of the HL7 prescription encoder (src/main.py):
the segment/field encoding engine (HL7Segment with add_field, set_field,
add_component, _escape_hl7, build), the message assembler (HL7Builder with
add_msh_segment and build_message) and the response reader
(parse_hl7_response).  Python strings are modelled as List Char, Python list
mutation as functional record update, fallible list indexing as Option, and
the dynamically typed values passed to the segment operations as the
inductive type PyValue.  The build timestamp produced by datetime.now() and
the resolved message control id are modelled as explicit inputs carried in
the builder state.
-/

/-- Python strings are modelled as lists of characters. -/
abbrev Str := List Char

/-- HL7_SEPARATORS["field"]. -/
def field_separator : Char := '|'

/-- HL7_SEPARATORS["component"]. -/
def component_separator : Char := '^'

/-- HL7_SEPARATORS["repetition"]. -/
def repetition_separator : Char := '~'

/-- HL7_SEPARATORS["escape"]. -/
def escape_character : Char := '\\'

/-- HL7_SEPARATORS["subcomponent"]. -/
def subcomponent_separator : Char := '&'

/-- Module constant SEGMENT_DELIMITER. -/
def SEGMENT_DELIMITER : Char := '\r'

/-- str(HL7EncodingCharacters()): field, component, repetition, escape,
subcomponent separators concatenated. -/
def encoding_str : Str :=
  [field_separator, component_separator, repetition_separator,
   escape_character, subcomponent_separator]

/-- Python str.replace for a single-character pattern: every occurrence of
the character c is replaced by repl. -/
def replaceChar (c : Char) (repl : Str) : Str → Str
  | [] => []
  | a :: rest => (if a = c then repl else [a]) ++ replaceChar c repl rest

/-- Python str.split(sep) for a single-character separator: the empty string
splits to [""], and a separator occurrence always contributes a boundary. -/
def splitChar (sep : Char) : Str → List Str
  | [] => [[]]
  | a :: rest =>
    if a = sep then [] :: splitChar sep rest
    else
      match splitChar sep rest with
      | [] => [[a]]
      | h :: t => (a :: h) :: t

/-- Python sep.join(parts) for a single-character separator. -/
def joinChar (sep : Char) : List Str → Str
  | [] => []
  | [x] => x
  | x :: y :: t => x ++ sep :: joinChar sep (y :: t)

/-- Python str.startswith: first argument is the pattern, second the string. -/
def startsWith : Str → Str → Bool
  | [], _ => true
  | _ :: _, [] => false
  | p :: ps, a :: s => if p = a then startsWith ps s else false

/-- A dynamically typed Python value passed to the segment operations. -/
inductive PyValue where
  | none
  | str (s : Str)
  | int (n : Int)
deriving DecidableEq

/-- Python str(value) for the modelled values. -/
def pyStr : PyValue → Str
  | .none => "None".data
  | .str s => s
  | .int n => (toString n).data

/-- Python truthiness bool(value): None, "" and 0 are falsy. -/
def pyTruthy : PyValue → Bool
  | .none => false
  | .str s => !s.isEmpty
  | .int n => n != 0

/-- HL7Segment: a 3-character tag and the list of stored (already escaped)
field strings. -/
structure HL7Segment where
  segment_id : Str
  fields : List Str
deriving DecidableEq

/-- HL7Segment._escape_hl7: empty input maps to empty output; otherwise the
five replacements run in the insertion order of the escape_map dict
(field, component, repetition, escape, subcomponent). -/
def _escape_hl7 (value : Str) : Str :=
  if value = [] then []
  else
    let r1 := replaceChar field_separator [escape_character, 'F', escape_character] value
    let r2 := replaceChar component_separator [escape_character, 'S', escape_character] r1
    let r3 := replaceChar repetition_separator [escape_character, 'R', escape_character] r2
    let r4 := replaceChar escape_character [escape_character, 'E', escape_character] r3
    replaceChar subcomponent_separator [escape_character, 'T', escape_character] r4

/-- The string stored for a value by HL7Segment.add_field: "" for None,
otherwise _escape_hl7(str(value)). -/
def strField (value : PyValue) : Str :=
  match value with
  | .none => []
  | v => _escape_hl7 (pyStr v)

/-- HL7Segment.add_field: the while loop appends "" while len(fields) is
below position, then the (escaped) value is appended after them. -/
def add_field (value : PyValue) (position : Int) (seg : HL7Segment) : HL7Segment :=
  { seg with fields :=
      (seg.fields ++ List.replicate ((position - (seg.fields.length : Int)).toNat) []) ++
        [strField value] }

/-- HL7Segment.set_field: rejects position below 1, delegates to add_field
when the list is shorter than position, otherwise overwrites index
position - 1. -/
def set_field (value : PyValue) (position : Int) (seg : HL7Segment) : Except String HL7Segment :=
  if position < 1 then Except.error "Position must be >= 1"
  else if (seg.fields.length : Int) < position then Except.ok (add_field value position seg)
  else Except.ok { seg with fields := seg.fields.set (position - 1).toNat (strField value) }

/-- The conditional growth step at the start of HL7Segment.add_component:
if len(fields) is below field_pos, add_field("", field_pos) runs first. -/
def grown_segment (field_pos : Int) (seg : HL7Segment) : HL7Segment :=
  if (seg.fields.length : Int) < field_pos then add_field (.str []) field_pos seg else seg

/-- The component-list rewrite performed by HL7Segment.add_component: the
while loop pads the list with "" up to comp_pos, then index comp_pos - 1
receives _escape_hl7(str(value)) when value is truthy and "" otherwise. -/
def new_components (value : PyValue) (comp_pos : Int) (comps : List Str) : List Str :=
  (comps ++ List.replicate ((comp_pos - (comps.length : Int)).toNat) []).set
    (comp_pos - 1).toNat
    (if pyTruthy value then _escape_hl7 (pyStr value) else [])

/-- HL7Segment.add_component: rejects positions below 1, grows the field
list if needed, reads back fields[field_pos - 1] (a fallible list access,
modelled in Option), splits it on the component separator (empty field
gives the empty component list), rewrites the component list via
new_components, and stores the rejoined string back. -/
def add_component (value : PyValue) (field_pos comp_pos : Int) (seg : HL7Segment) :
    Except String HL7Segment :=
  if field_pos < 1 ∨ comp_pos < 1 then Except.error "Positions must be >= 1"
  else
    let seg1 := grown_segment field_pos seg
    match seg1.fields.get? (field_pos - 1).toNat with
    | Option.none => Except.error "list index out of range"
    | Option.some field =>
      Except.ok { seg1 with
        fields := seg1.fields.set (field_pos - 1).toNat
          (joinChar component_separator (new_components value comp_pos
            (if field = [] then [] else splitChar component_separator field))) }

/-- The component list add_component reads back from field field_pos before
rewriting it (the split performed by the source on the current value). -/
def current_components (field_pos : Int) (seg : HL7Segment) : List Str :=
  match (grown_segment field_pos seg).fields.get? (field_pos - 1).toNat with
  | Option.some field => if field = [] then [] else splitChar component_separator field
  | Option.none => []

/-- HL7Segment.build: tag, field separator, then the field-separator-joined
fields. -/
def HL7Segment.build (s : HL7Segment) : Str :=
  s.segment_id ++ field_separator :: joinChar field_separator s.fields

/-- The HL7Config fields consumed by the assembler core (MSH synthesis and
serialization); message_type holds the value string of the MessageType
enum member. -/
structure HL7Config where
  version : Str
  message_type : Str
  sending_application : Str
  sending_facility : Str
  receiving_application : Str
  receiving_facility : Str
  charset : Str
  country_code : Str
  processing_id : Str
  include_msh : Bool
deriving DecidableEq

/-- HL7Builder state: the configuration, the ordered segment list, the
message control id resolved in __init__ (supplied or generated), and the
_format_hl7_date(datetime.now()) timestamp string, an external input. -/
structure HL7Builder where
  config : HL7Config
  segments : List HL7Segment
  message_control_id : Str
  now_str : Str
deriving DecidableEq

/-- The MSH segment built by HL7Builder.add_msh_segment: the exact sequence
of add_field calls of the source, at positions 2 through 20. -/
def msh_segment (b : HL7Builder) : HL7Segment :=
  let msh : HL7Segment := { segment_id := "MSH".data, fields := [] }
  let msh := add_field (.str encoding_str) 2 msh
  let msh := add_field (.str b.config.sending_application) 3 msh
  let msh := add_field (.str b.config.sending_facility) 4 msh
  let msh := add_field (.str b.config.receiving_application) 5 msh
  let msh := add_field (.str b.config.receiving_facility) 6 msh
  let msh := add_field (.str b.now_str) 7 msh
  let msh := add_field (.str []) 8 msh
  let msh := add_field (.str b.config.message_type) 9 msh
  let msh := add_field (.str b.message_control_id) 10 msh
  let msh := add_field (.str b.config.processing_id) 11 msh
  let msh := add_field (.str b.config.version) 12 msh
  let msh := add_field (.str []) 13 msh
  let msh := add_field (.str []) 14 msh
  let msh := add_field (.str "AL".data) 15 msh
  let msh := add_field (.str "AL".data) 16 msh
  let msh := add_field (.str b.config.country_code) 17 msh
  let msh := add_field (.str b.config.charset) 18 msh
  let msh := add_field (.str []) 19 msh
  add_field (.str []) 20 msh

/-- HL7Builder.add_msh_segment: builds the MSH segment and appends it to
self.segments. -/
def add_msh_segment (b : HL7Builder) : HL7Builder :=
  { b with segments := b.segments ++ [msh_segment b] }

/-- The segment list HL7Builder.build_message serializes: when include_msh
is set and no segment carries the MSH tag, add_msh_segment runs first. -/
def build_segments (b : HL7Builder) : List HL7Segment :=
  if b.config.include_msh = true ∧ ∀ s ∈ b.segments, s.segment_id ≠ "MSH".data
  then (add_msh_segment b).segments
  else b.segments

/-- HL7Builder.build_message: each segment's build output joined by the
segment delimiter. -/
def build_message (b : HL7Builder) : Str :=
  joinChar SEGMENT_DELIMITER ((build_segments b).map HL7Segment.build)

/-- The acknowledgment dict built by parse_hl7_response for an MSA line. -/
structure Acknowledgment where
  code : Str
  message : Str
  control_id : Str
deriving DecidableEq

/-- The result dict of parse_hl7_response; the message_type and
message_control_id keys are absent until an MSH line is seen, modelled as
Option. -/
structure ParseResult where
  segments : List Str
  acknowledgment : Option Acknowledgment
  status : Str
  message_type : Option Str
  message_control_id : Option Str
deriving DecidableEq

/-- The initial result dict of parse_hl7_response. -/
def init_result : ParseResult :=
  { segments := [], acknowledgment := Option.none, status := "unknown".data,
    message_type := Option.none, message_control_id := Option.none }

/-- Python parts[i] if len(parts) > i else "": the guarded positional
access pattern of parse_hl7_response; the unguarded access is get?. -/
def safe_index (parts : List Str) (i : Nat) : Option Str :=
  if i < parts.length then parts.get? i else Option.some []

/-- result["segments"].append(line[:3]), run for every line. -/
def append_seg (line : Str) (r : ParseResult) : ParseResult :=
  { r with segments := r.segments ++ [line.take 3] }

/-- The status classification of parse_hl7_response from the MSA code. -/
def set_status (code : Str) (r : ParseResult) : ParseResult :=
  if code = "AA".data then { r with status := "accepted".data }
  else if code = "AE".data then { r with status := "error".data }
  else if code = "AR".data then { r with status := "rejected".data }
  else r

/-- One iteration of the line loop of parse_hl7_response.  A positional
access that would raise IndexError in Python is modelled as Option.none;
the guards of the source keep every access in range, which the theorems
below establish. -/
def parse_step (r : ParseResult) (line : Str) : Option ParseResult :=
  if startsWith "MSH".data line then
    match safe_index (splitChar field_separator line) 8,
          safe_index (splitChar field_separator line) 9 with
    | Option.some mt, Option.some mc =>
        Option.some (append_seg line
          { r with message_type := Option.some mt, message_control_id := Option.some mc })
    | _, _ => Option.none
  else if startsWith "MSA".data line then
    let parts := splitChar field_separator line
    if 2 ≤ parts.length then
      match parts.get? 1, safe_index parts 2, safe_index parts 3 with
      | Option.some code, Option.some m, Option.some cid =>
          Option.some (append_seg line
            (set_status code
              { r with acknowledgment := Option.some { code := code, message := m, control_id := cid } }))
      | _, _, _ => Option.none
    else Option.some (append_seg line r)
  else Option.some (append_seg line r)

/-- The line loop of parse_hl7_response. -/
def parse_lines (r : ParseResult) : List Str → Option ParseResult
  | [] => Option.some r
  | l :: ls =>
    match parse_step r l with
    | Option.some r2 => parse_lines r2 ls
    | Option.none => Option.none

/-- parse_hl7_response: split the message on the segment delimiter and run
the line loop from the initial result dict. -/
def parse_hl7_response (hl7_message : Str) : Option ParseResult :=
  parse_lines init_result (splitChar SEGMENT_DELIMITER hl7_message)

/-- A concrete empty segment used by the concrete evaluations below. -/
def seg_empty : HL7Segment := { segment_id := "ZZZ".data, fields := [] }

/-- A concrete configuration with header auto-append enabled. -/
def cfg_base : HL7Config :=
  { version := "2.5".data, message_type := "RDE^O11".data,
    sending_application := "SA".data, sending_facility := "SF".data,
    receiving_application := "RA".data, receiving_facility := "RF".data,
    charset := "UTF-8".data, country_code := "USA".data,
    processing_id := "P".data, include_msh := true }

/-- A concrete builder holding one non-MSH segment, with header auto-append
enabled. -/
def builder_aaa : HL7Builder :=
  { config := cfg_base,
    segments := [{ segment_id := "AAA".data, fields := [] }],
    message_control_id := "MSG1".data, now_str := "20250101120000".data }

/-! ### List helper lemmas -/

theorem get?_append_left {α : Type} (l1 l2 : List α) (i : Nat) (h : i < l1.length) :
    (l1 ++ l2).get? i = l1.get? i := by
  induction l1 generalizing i with
  | nil => simp at h
  | cons a t ih =>
    cases i with
    | zero => rfl
    | succ j => exact ih j (by simpa using h)

theorem get?_lt {α : Type} (l : List α) (i : Nat) (h : i < l.length) :
    ∃ a, l.get? i = some a := by
  induction l generalizing i with
  | nil => simp at h
  | cons a t ih =>
    cases i with
    | zero => exact ⟨a, rfl⟩
    | succ j => exact ih j (by simpa using h)

theorem get?_set_self {α : Type} (l : List α) (i : Nat) (a : α) (h : i < l.length) :
    (l.set i a).get? i = some a := by
  induction l generalizing i with
  | nil => simp at h
  | cons b t ih =>
    cases i with
    | zero => rfl
    | succ j => exact ih j (by simpa using h)

theorem mem_of_mem_set {α : Type} (l : List α) (i : Nat) (a x : α)
    (h : x ∈ l.set i a) : x ∈ l ∨ x = a := by
  induction l generalizing i with
  | nil => simp at h
  | cons b t ih =>
    cases i with
    | zero =>
      rcases List.mem_cons.mp h with h1 | h1
      · exact Or.inr h1
      · exact Or.inl (List.mem_cons_of_mem b h1)
    | succ j =>
      rcases List.mem_cons.mp h with h1 | h1
      · exact Or.inl (h1 ▸ List.mem_cons_self b t)
      · rcases ih j h1 with h2 | h2
        · exact Or.inl (List.mem_cons_of_mem b h2)
        · exact Or.inr h2

/-! ### splitChar / joinChar / replaceChar lemmas -/

theorem splitChar_ne_nil (sep : Char) (s : Str) : splitChar sep s ≠ [] := by
  cases s with
  | nil => simp [splitChar]
  | cons a rest =>
    simp only [splitChar]
    split
    · simp
    · split <;> simp

theorem not_mem_of_mem_splitChar (sep : Char) :
    ∀ (s : Str) (x : Str), x ∈ splitChar sep s → sep ∉ x := by
  intro s
  induction s with
  | nil =>
    intro x hx
    simp [splitChar] at hx
    simp [hx]
  | cons a rest ih =>
    intro x hx
    by_cases ha : a = sep
    · simp only [splitChar, if_pos ha] at hx
      rcases List.mem_cons.mp hx with h1 | h1
      · simp [h1]
      · exact ih x h1
    · revert hx
      simp only [splitChar, if_neg ha]
      cases hsp : splitChar sep rest with
      | nil => exact absurd hsp (splitChar_ne_nil sep rest)
      | cons h t =>
        intro hx
        rcases List.mem_cons.mp hx with h1 | h1
        · subst h1
          intro hmem
          rcases List.mem_cons.mp hmem with h2 | h2
          · exact ha h2.symm
          · exact ih h (by simp [hsp]) h2
        · exact ih x (by simp [hsp, h1])

theorem splitChar_of_not_mem (sep : Char) :
    ∀ (s : Str), sep ∉ s → splitChar sep s = [s] := by
  intro s
  induction s with
  | nil => intro _; rfl
  | cons a rest ih =>
    intro h
    have ha : ¬ a = sep := by
      intro he
      exact h (by simp [he])
    have ht : sep ∉ rest := fun hm => h (List.mem_cons_of_mem a hm)
    simp only [splitChar, if_neg ha]
    rw [ih ht]

theorem splitChar_append (sep : Char) :
    ∀ (x r : Str), sep ∉ x → splitChar sep (x ++ sep :: r) = x :: splitChar sep r := by
  intro x
  induction x with
  | nil =>
    intro r _
    simp [splitChar]
  | cons a t ih =>
    intro r h
    have ha : ¬ a = sep := by
      intro he
      exact h (by simp [he])
    have ht : sep ∉ t := fun hm => h (List.mem_cons_of_mem a hm)
    simp only [List.cons_append, splitChar, if_neg ha, List.append_eq]
    rw [ih r ht]

theorem joinChar_cons (sep : Char) (x y : Str) (t : List Str) :
    joinChar sep (x :: y :: t) = x ++ sep :: joinChar sep (y :: t) := rfl

theorem splitChar_joinChar (sep : Char) :
    ∀ (ls : List Str), ls ≠ [] → (∀ x ∈ ls, sep ∉ x) →
      splitChar sep (joinChar sep ls) = ls := by
  intro ls
  induction ls with
  | nil => intro h _; exact absurd rfl h
  | cons x t ih =>
    intro _ hmem
    cases t with
    | nil =>
      have hx := splitChar_of_not_mem sep x (hmem x (by simp))
      simpa [joinChar] using hx
    | cons y t2 =>
      rw [joinChar_cons, splitChar_append sep x _ (hmem x (by simp))]
      rw [ih (by simp) (fun z hz => hmem z (List.mem_cons_of_mem x hz))]

theorem not_mem_replaceChar (c t0 : Char) (repl : Str) :
    ∀ (s : Str), c ∉ s → c ∉ repl → c ∉ replaceChar t0 repl s := by
  intro s
  induction s with
  | nil =>
    intro _ _
    simp [replaceChar]
  | cons a rest ih =>
    intro hs hr
    simp only [replaceChar]
    intro hmem
    rcases List.mem_append.mp hmem with h | h
    · by_cases ha : a = t0
      · rw [if_pos ha] at h
        exact hr h
      · rw [if_neg ha] at h
        simp at h
        exact hs (by simp [h])
    · exact ih (fun hm => hs (List.mem_cons_of_mem a hm)) hr h

theorem not_mem_replaceChar_self (t0 : Char) (repl : Str) (s : Str) (hr : t0 ∉ repl) :
    t0 ∉ replaceChar t0 repl s := by
  induction s with
  | nil => simp [replaceChar]
  | cons a rest ih =>
    simp only [replaceChar]
    intro hmem
    rcases List.mem_append.mp hmem with h | h
    · by_cases ha : a = t0
      · rw [if_pos ha] at h
        exact hr h
      · rw [if_neg ha] at h
        simp at h
        exact ha h.symm
    · exact ih h

theorem caret_not_mem_escape (s : Str) : component_separator ∉ _escape_hl7 s := by
  by_cases hv : s = []
  · simp [_escape_hl7, hv]
  · simp only [_escape_hl7, if_neg hv]
    apply not_mem_replaceChar
    · apply not_mem_replaceChar
      · apply not_mem_replaceChar
        · exact not_mem_replaceChar_self component_separator
            [escape_character, 'S', escape_character] _ (by decide)
        · decide
      · decide
    · decide

/-! ### Segment operation lemmas -/

theorem add_field_length (v : PyValue) (p : Int) (seg : HL7Segment) :
    (add_field v p seg).fields.length =
      seg.fields.length + (p - (seg.fields.length : Int)).toNat + 1 := by
  simp only [add_field, List.length_append, List.length_replicate, List.length_cons,
    List.length_nil]

theorem add_field_get?_lt (v : PyValue) (p : Int) (seg : HL7Segment) (i : Nat)
    (h : i < seg.fields.length) :
    (add_field v p seg).fields.get? i = seg.fields.get? i := by
  simp only [add_field]
  rw [get?_append_left _ _ i (by simp only [List.length_append]; omega),
    get?_append_left _ _ i h]

theorem add_field_id (v : PyValue) (p : Int) (seg : HL7Segment) :
    (add_field v p seg).segment_id = seg.segment_id := rfl

theorem grown_segment_bound (f : Int) (seg : HL7Segment) (hf : 1 ≤ f) :
    (f - 1).toNat < (grown_segment f seg).fields.length := by
  unfold grown_segment
  split
  · rename_i h
    rw [add_field_length]
    omega
  · rename_i h
    omega

theorem grown_segment_get?_lt (f : Int) (seg : HL7Segment) (i : Nat)
    (h : i < seg.fields.length) :
    (grown_segment f seg).fields.get? i = seg.fields.get? i := by
  unfold grown_segment
  split
  · exact add_field_get?_lt _ _ _ _ h
  · rfl

theorem grown_segment_length_le (f : Int) (seg : HL7Segment) :
    seg.fields.length ≤ (grown_segment f seg).fields.length := by
  unfold grown_segment
  split
  · rw [add_field_length]
    omega
  · exact Nat.le_refl _

theorem add_component_eq (v : PyValue) (f c : Int) (seg : HL7Segment)
    (hf : 1 ≤ f) (hc : 1 ≤ c) :
    add_component v f c seg = Except.ok { grown_segment f seg with
      fields := (grown_segment f seg).fields.set (f - 1).toNat
        (joinChar component_separator (new_components v c (current_components f seg))) } := by
  obtain ⟨field, hfield⟩ := get?_lt _ _ (grown_segment_bound f seg hf)
  have hnot : ¬ (f < 1 ∨ c < 1) := by omega
  simp only [add_component, if_neg hnot, hfield, current_components]

theorem add_component_isOk (v : PyValue) (f c : Int) (seg : HL7Segment)
    (hf : 1 ≤ f) (hc : 1 ≤ c) : ∃ seg2, add_component v f c seg = Except.ok seg2 :=
  ⟨_, add_component_eq v f c seg hf hc⟩

theorem set_field_error_iff (v : PyValue) (p : Int) (seg : HL7Segment) :
    (∃ e, set_field v p seg = Except.error e) ↔ p < 1 := by
  unfold set_field
  constructor
  · rintro ⟨e, he⟩
    by_contra hp
    rw [if_neg hp] at he
    split at he <;> simp at he
  · intro hp
    rw [if_pos hp]
    exact ⟨_, rfl⟩

theorem set_field_ok_iff (v : PyValue) (p : Int) (seg : HL7Segment) :
    (∃ seg2, set_field v p seg = Except.ok seg2) ↔ 1 ≤ p := by
  unfold set_field
  constructor
  · rintro ⟨s2, hs⟩
    by_contra hp
    rw [if_pos (by omega)] at hs
    simp at hs
  · intro hp
    rw [if_neg (by omega)]
    split
    · exact ⟨_, rfl⟩
    · exact ⟨_, rfl⟩

theorem add_component_error_iff (v : PyValue) (f c : Int) (seg : HL7Segment) :
    (∃ e, add_component v f c seg = Except.error e) ↔ (f < 1 ∨ c < 1) := by
  constructor
  · rintro ⟨e, he⟩
    by_contra hp
    obtain ⟨seg2, h2⟩ := add_component_isOk v f c seg (by omega) (by omega)
    rw [h2] at he
    simp at he
  · intro hp
    exact ⟨"Positions must be >= 1", by unfold add_component; rw [if_pos hp]⟩

theorem add_component_ok_iff (v : PyValue) (f c : Int) (seg : HL7Segment) :
    (∃ seg2, add_component v f c seg = Except.ok seg2) ↔ (1 ≤ f ∧ 1 ≤ c) := by
  constructor
  · rintro ⟨s2, hs⟩
    by_contra hp
    obtain ⟨e, he⟩ := (add_component_error_iff v f c seg).mpr (by omega)
    rw [he] at hs
    simp at hs
  · intro hp
    exact add_component_isOk v f c seg hp.1 hp.2

/-! ### Claim theorems: segment field writing -/

/-- C1: the claim that set_field(v, position) always leaves escape(str(v))
readable at the 1-based target position, with the backfill stopping before
that position, fails in the source: when the field list is shorter than the
target, add_field pads up to and including the target index and appends the
value one slot later.  Evaluating the code at the failing input:
set_field("x", 3) on an empty segment yields fields ["", "", "", "x"], so
position 3 (index 2) reads "" while escape(str("x")) = "x" lands at
position 4. -/
theorem set_field_growth_off_by_one :
    set_field (PyValue.str ['x']) 3 seg_empty =
      Except.ok { segment_id := "ZZZ".data, fields := [[], [], [], ['x']] } ∧
    ([[], [], [], ['x']] : List Str).get? 2 = some [] ∧
    _escape_hl7 (pyStr (PyValue.str ['x'])) = ['x'] := by
  refine ⟨by rfl, by rfl, by rfl⟩

/-- C2: the round-trip law decode(escape(s)) = s fails in the source: the
escape-character substitution runs fourth in the escape_map, after the
field token "\F\" has been inserted, so that token's backslashes are
re-escaped.  Concretely escape("|") and escape("\F\") both evaluate to
"\E\F\E\", so escape is not injective on delimiter-containing strings and
no decode function can reverse it on both inputs. -/
theorem escape_reescapes_inserted_tokens :
    _escape_hl7 ['|'] = ['\\', 'E', '\\', 'F', '\\', 'E', '\\'] ∧
    _escape_hl7 ['\\', 'F', '\\'] = ['\\', 'E', '\\', 'F', '\\', 'E', '\\'] ∧
    (['|'] : Str) ≠ ['\\', 'F', '\\'] := by
  refine ⟨by decide, by decide, by decide⟩

/-- C3: the claim that set_field is idempotent fails in the source: on an
empty segment, set_field("x", 1) takes the add_field path and produces
fields ["", "x"], while a second identical call takes the overwrite path
and writes index 0, producing ["x", "x"], a different state. -/
theorem set_field_not_idempotent :
    set_field (PyValue.str ['x']) 1 seg_empty =
      Except.ok { segment_id := "ZZZ".data, fields := [[], ['x']] } ∧
    set_field (PyValue.str ['x']) 1 { segment_id := "ZZZ".data, fields := [[], ['x']] } =
      Except.ok { segment_id := "ZZZ".data, fields := [['x'], ['x']] } ∧
    ({ segment_id := "ZZZ".data, fields := [[], ['x']] } : HL7Segment) ≠
      { segment_id := "ZZZ".data, fields := [['x'], ['x']] } := by
  refine ⟨by rfl, by rfl, by decide⟩

/-- C6: set_field fails with the invalid-position error exactly when
position < 1, add_component fails exactly when the field or component
position is below 1, the check runs before any mutation (an error returns
no new segment state), and every call with positions ≥ 1 returns ok. -/
theorem invalid_position_error_characterization :
    (∀ (v : PyValue) (p : Int) (seg : HL7Segment),
        (∃ e, set_field v p seg = Except.error e) ↔ p < 1) ∧
    (∀ (v : PyValue) (p : Int) (seg : HL7Segment),
        (∃ seg2, set_field v p seg = Except.ok seg2) ↔ 1 ≤ p) ∧
    (∀ (v : PyValue) (f c : Int) (seg : HL7Segment),
        (∃ e, add_component v f c seg = Except.error e) ↔ (f < 1 ∨ c < 1)) ∧
    (∀ (v : PyValue) (f c : Int) (seg : HL7Segment),
        (∃ seg2, add_component v f c seg = Except.ok seg2) ↔ (1 ≤ f ∧ 1 ≤ c)) :=
  ⟨set_field_error_iff, set_field_ok_iff, add_component_error_iff, add_component_ok_iff⟩

/-- Witness for C6: at the concrete invalid position 0, set_field on the
empty segment returns the invalid-position error. -/
theorem invalid_position_error_characterization_witness :
    ∃ e, set_field (PyValue.str ['x']) 0 seg_empty = Except.error e :=
  (invalid_position_error_characterization.1 (PyValue.str ['x']) 0 seg_empty).mpr
    (by decide)

/-! ### Component rewrite lemmas -/

theorem new_components_length (v : PyValue) (c : Int) (comps : List Str) :
    (new_components v c comps).length =
      comps.length + (c - (comps.length : Int)).toNat := by
  simp only [new_components, List.length_set, List.length_append, List.length_replicate]

theorem new_components_get (v : PyValue) (c : Int) (comps : List Str) (hc : 1 ≤ c) :
    (new_components v c comps).get? (c - 1).toNat =
      some (if pyTruthy v then _escape_hl7 (pyStr v) else []) := by
  apply get?_set_self
  simp only [List.length_append, List.length_replicate]
  omega

theorem new_components_sep_free (v : PyValue) (c : Int) (comps : List Str)
    (h : ∀ x ∈ comps, component_separator ∉ x) :
    ∀ x ∈ new_components v c comps, component_separator ∉ x := by
  intro x hx
  rcases mem_of_mem_set _ _ _ _ hx with h1 | h1
  · rcases List.mem_append.mp h1 with h2 | h2
    · exact h x h2
    · rw [List.eq_of_mem_replicate h2]
      simp
  · subst h1
    split
    · exact caret_not_mem_escape _
    · simp

theorem new_components_ne_nil (v : PyValue) (c : Int) (comps : List Str) (hc : 1 ≤ c) :
    new_components v c comps ≠ [] := by
  intro h
  have h2 := congrArg List.length h
  rw [new_components_length] at h2
  have h3 : comps.length + (c - (comps.length : Int)).toNat = 0 := by simpa using h2
  omega

theorem current_components_sep_free (f : Int) (seg : HL7Segment) :
    ∀ x ∈ current_components f seg, component_separator ∉ x := by
  intro x hx
  unfold current_components at hx
  split at hx
  · split at hx
    · simp at hx
    · exact not_mem_of_mem_splitChar _ _ _ hx
  · simp at hx

theorem add_component_spec (seg : HL7Segment) (v : PyValue) (f c : Int)
    (hf : 1 ≤ f) (hc : 1 ≤ c) :
    ∃ seg2 fld,
      add_component v f c seg = Except.ok seg2 ∧
      seg2.fields.get? (f - 1).toNat = some fld ∧
      splitChar component_separator fld = new_components v c (current_components f seg) := by
  refine ⟨_, joinChar component_separator (new_components v c (current_components f seg)),
    add_component_eq v f c seg hf hc, ?_, ?_⟩
  · exact get?_set_self _ _ _ (grown_segment_bound f seg hf)
  · exact splitChar_joinChar _ _ (new_components_ne_nil v c _ hc)
      (new_components_sep_free v c _ (current_components_sep_free f seg))

/-! ### Claim theorems: component addressing -/

/-- C4 counterexample: the claim says escaping is applied unconditionally
with no special case for numeric zero, but add_component(0, 1, 1) on an
empty segment stores "" for the falsy number 0 while escape(str(0)) is
"0". -/
theorem add_component_zero_counterexample :
    add_component (PyValue.int 0) 1 1 seg_empty =
      Except.ok { segment_id := "ZZZ".data, fields := [[], []] } ∧
    _escape_hl7 (pyStr (PyValue.int 0)) = ['0'] ∧
    (([] : Str) ≠ ['0']) := by
  refine ⟨by rfl, by rfl, by decide⟩

/-- C4 amended: for truthy values, add_component(v, f, c) with f, c ≥ 1
leaves field f splitting (on the component separator) into a list of length
at least c whose entry at index c - 1 is escape(str(v)), never truncating
the components previously present; for falsy values (None, 0, "") the
entry at index c - 1 is set to the empty string instead. -/
theorem add_component_places_escaped_value :
    (∀ (seg : HL7Segment) (v : PyValue) (f c : Int), 1 ≤ f → 1 ≤ c →
      pyTruthy v = true →
      ∃ seg2 fld,
        add_component v f c seg = Except.ok seg2 ∧
        seg2.fields.get? (f - 1).toNat = some fld ∧
        c ≤ ((splitChar component_separator fld).length : Int) ∧
        (splitChar component_separator fld).get? (c - 1).toNat =
          some (_escape_hl7 (pyStr v)) ∧
        (current_components f seg).length ≤ (splitChar component_separator fld).length) ∧
    (∀ (seg : HL7Segment) (v : PyValue) (f c : Int), 1 ≤ f → 1 ≤ c →
      pyTruthy v = false →
      ∃ seg2 fld,
        add_component v f c seg = Except.ok seg2 ∧
        seg2.fields.get? (f - 1).toNat = some fld ∧
        c ≤ ((splitChar component_separator fld).length : Int) ∧
        (splitChar component_separator fld).get? (c - 1).toNat = some [] ∧
        (current_components f seg).length ≤ (splitChar component_separator fld).length) := by
  constructor
  · intro seg v f c hf hc hv
    obtain ⟨seg2, fld, h1, h2, h3⟩ := add_component_spec seg v f c hf hc
    refine ⟨seg2, fld, h1, h2, ?_, ?_, ?_⟩
    · rw [h3, new_components_length]
      omega
    · rw [h3, new_components_get v c _ hc, hv]
      simp
    · rw [h3, new_components_length]
      omega
  · intro seg v f c hf hc hv
    obtain ⟨seg2, fld, h1, h2, h3⟩ := add_component_spec seg v f c hf hc
    refine ⟨seg2, fld, h1, h2, ?_, ?_, ?_⟩
    · rw [h3, new_components_length]
      omega
    · rw [h3, new_components_get v c _ hc, hv]
      simp
    · rw [h3, new_components_length]
      omega

/-- Witness for the amended C4: add_component("a", 1, 1) on an empty
segment makes field 1 split into the single component escape("a"). -/
theorem add_component_places_escaped_value_witness :
    ∃ seg2 fld,
      add_component (PyValue.str ['a']) 1 1 seg_empty = Except.ok seg2 ∧
      seg2.fields.get? ((1 : Int) - 1).toNat = some fld ∧
      (1 : Int) ≤ ((splitChar component_separator fld).length : Int) ∧
      (splitChar component_separator fld).get? ((1 : Int) - 1).toNat =
        some (_escape_hl7 (pyStr (PyValue.str ['a']))) ∧
      (current_components 1 seg_empty).length ≤
        (splitChar component_separator fld).length :=
  add_component_places_escaped_value.1 seg_empty (PyValue.str ['a']) 1 1
    (by decide) (by decide) (by decide)

/-! ### Claim theorems: preservation -/

theorem set_field_ok_inversion (v : PyValue) (p : Int) (seg seg2 : HL7Segment)
    (h : set_field v p seg = Except.ok seg2) :
    1 ≤ p ∧ (((seg.fields.length : Int) < p ∧ seg2 = add_field v p seg) ∨
      (p ≤ (seg.fields.length : Int) ∧
        seg2 = { seg with fields := seg.fields.set (p - 1).toNat (strField v) })) := by
  unfold set_field at h
  by_cases h1 : p < 1
  · rw [if_pos h1] at h
    exact absurd h (by simp)
  · rw [if_neg h1] at h
    by_cases h2 : (seg.fields.length : Int) < p
    · rw [if_pos h2] at h
      exact ⟨by omega, Or.inl ⟨h2, (Except.ok.inj h).symm⟩⟩
    · rw [if_neg h2] at h
      exact ⟨by omega, Or.inr ⟨by omega, (Except.ok.inj h).symm⟩⟩

theorem add_component_ok_inversion (v : PyValue) (f c : Int) (seg seg2 : HL7Segment)
    (h : add_component v f c seg = Except.ok seg2) :
    1 ≤ f ∧ 1 ≤ c ∧ seg2 = { grown_segment f seg with
      fields := (grown_segment f seg).fields.set (f - 1).toNat
        (joinChar component_separator (new_components v c (current_components f seg))) } := by
  have hfc : 1 ≤ f ∧ 1 ≤ c := by
    by_contra hp
    obtain ⟨e, he⟩ := (add_component_error_iff v f c seg).mpr (by omega)
    rw [he] at h
    simp at h
  have heq := add_component_eq v f c seg hfc.1 hfc.2
  rw [heq] at h
  exact ⟨hfc.1, hfc.2, (Except.ok.inj h).symm⟩

/-- C9: add_field, set_field and add_component keep every previously
stored field at an index other than the written one unchanged, and none of
them ever shrinks the field list. -/
theorem segment_ops_preserve_other_fields :
    (∀ (v : PyValue) (p : Int) (seg : HL7Segment) (i : Nat),
        i < seg.fields.length → i ≠ (p - 1).toNat →
        (add_field v p seg).fields.get? i = seg.fields.get? i) ∧
    (∀ (v : PyValue) (p : Int) (seg : HL7Segment),
        seg.fields.length ≤ (add_field v p seg).fields.length) ∧
    (∀ (v : PyValue) (p : Int) (seg seg2 : HL7Segment),
        set_field v p seg = Except.ok seg2 →
        ∀ i : Nat, i < seg.fields.length → i ≠ (p - 1).toNat →
        seg2.fields.get? i = seg.fields.get? i) ∧
    (∀ (v : PyValue) (p : Int) (seg seg2 : HL7Segment),
        set_field v p seg = Except.ok seg2 → seg.fields.length ≤ seg2.fields.length) ∧
    (∀ (v : PyValue) (f c : Int) (seg seg2 : HL7Segment),
        add_component v f c seg = Except.ok seg2 →
        ∀ i : Nat, i < seg.fields.length → i ≠ (f - 1).toNat →
        seg2.fields.get? i = seg.fields.get? i) ∧
    (∀ (v : PyValue) (f c : Int) (seg seg2 : HL7Segment),
        add_component v f c seg = Except.ok seg2 → seg.fields.length ≤ seg2.fields.length) := by
  refine ⟨?_, ?_, ?_, ?_, ?_, ?_⟩
  · intro v p seg i hi _
    exact add_field_get?_lt v p seg i hi
  · intro v p seg
    rw [add_field_length]
    omega
  · intro v p seg seg2 h i hi hne
    rcases (set_field_ok_inversion v p seg seg2 h).2 with ⟨hlt, heq⟩ | ⟨hle, heq⟩
    · subst heq
      exact add_field_get?_lt v p seg i hi
    · subst heq
      exact List.get?_set_ne _ _ (Ne.symm hne)
  · intro v p seg seg2 h
    rcases (set_field_ok_inversion v p seg seg2 h).2 with ⟨hlt, heq⟩ | ⟨hle, heq⟩
    · subst heq
      rw [add_field_length]
      omega
    · subst heq
      simp [List.length_set]
  · intro v f c seg seg2 h i hi hne
    obtain ⟨hf, hc, heq⟩ := add_component_ok_inversion v f c seg seg2 h
    subst heq
    exact (List.get?_set_ne _ _ (Ne.symm hne)).trans (grown_segment_get?_lt f seg i hi)
  · intro v f c seg seg2 h
    obtain ⟨hf, hc, heq⟩ := add_component_ok_inversion v f c seg seg2 h
    subst heq
    simp only [List.length_set]
    exact grown_segment_length_le f seg

/-- Witness for C9: overwriting field 2 with set_field leaves field 1 of a
concrete two-field segment unchanged. -/
theorem segment_ops_preserve_other_fields_witness :
    ({ segment_id := "ZZZ".data, fields := [['a'], ['y']] } : HL7Segment).fields.get? 0 =
      ({ segment_id := "ZZZ".data, fields := [['a'], ['b']] } : HL7Segment).fields.get? 0 :=
  segment_ops_preserve_other_fields.2.2.1 (PyValue.str ['y']) 2
    { segment_id := "ZZZ".data, fields := [['a'], ['b']] }
    { segment_id := "ZZZ".data, fields := [['a'], ['y']] } (by rfl) 0 (by decide) (by decide)

/-! ### Claim theorems: assembler serialization -/

/-- C5 counterexample: with header auto-append enabled and one non-MSH
segment appended, build_message synthesizes the MSH segment but places it
last, so the serialized output does not begin with the header as the claim
states. -/
theorem header_not_prepended_counterexample :
    (build_segments builder_aaa).map HL7Segment.segment_id = ["AAA".data, "MSH".data] ∧
    startsWith "MSH".data (build_message builder_aaa) = false := by
  refine ⟨by rfl, by rfl⟩

theorem filter_eq_nil_of_forall {p : HL7Segment → Bool} :
    ∀ (l : List HL7Segment), (∀ a ∈ l, p a = false) → l.filter p = [] := by
  intro l
  induction l with
  | nil => intro _; rfl
  | cons a t ih =>
    intro h
    rw [List.filter_cons, h a (by simp)]
    simp only [Bool.false_eq_true, if_neg (by simp : ¬ (false = true))]
    exact ih (fun x hx => h x (List.mem_cons_of_mem a hx))

/-- C5 amended: with header auto-append enabled and no MSH segment present,
build_message synthesizes exactly one MSH segment but appends it after the
existing segments rather than placing it first; the output is the join of
the original segments followed by the synthesized header. -/
theorem header_synthesized_appended (b : HL7Builder)
    (hmsh : b.config.include_msh = true)
    (habs : ∀ s ∈ b.segments, s.segment_id ≠ "MSH".data) :
    build_segments b = b.segments ++ [msh_segment b] ∧
    (msh_segment b).segment_id = "MSH".data ∧
    ((build_segments b).filter (fun s => decide (s.segment_id = "MSH".data))).length = 1 ∧
    build_message b =
      joinChar SEGMENT_DELIMITER ((b.segments ++ [msh_segment b]).map HL7Segment.build) := by
  have h1 : build_segments b = b.segments ++ [msh_segment b] := by
    unfold build_segments
    rw [if_pos ⟨hmsh, habs⟩]
    rfl
  have hid : (msh_segment b).segment_id = "MSH".data := by rfl
  have hfil : b.segments.filter (fun s => decide (s.segment_id = "MSH".data)) = [] := by
    apply filter_eq_nil_of_forall
    intro a ha
    simp only [decide_eq_false_iff_not]
    exact habs a ha
  refine ⟨h1, hid, ?_, ?_⟩
  · rw [h1, List.filter_append, hfil]
    simp [hid]
  · unfold build_message
    rw [h1]

/-- Witness for the amended C5: the concrete builder holding one AAA
segment gets exactly one MSH segment appended at the end. -/
theorem header_synthesized_appended_witness :
    build_segments builder_aaa = builder_aaa.segments ++ [msh_segment builder_aaa] ∧
    (msh_segment builder_aaa).segment_id = "MSH".data ∧
    ((build_segments builder_aaa).filter
      (fun s => decide (s.segment_id = "MSH".data))).length = 1 ∧
    build_message builder_aaa =
      joinChar SEGMENT_DELIMITER
        ((builder_aaa.segments ++ [msh_segment builder_aaa]).map HL7Segment.build) :=
  header_synthesized_appended builder_aaa (by rfl) (by decide)

/-- C7: with header auto-append disabled, serializing a builder holding
exactly the three segments tagged AAA, BBB, CCC (in that order) yields
their build strings joined by the segment delimiter in append order, with
no trailing delimiter, no reordering and no deduplication. -/
theorem three_segments_serialization
    (fa fb fc : List Str) (ver mt sa sf ra rf cs cc pid cid now : Str) :
    build_message
      { config := { version := ver, message_type := mt, sending_application := sa,
                    sending_facility := sf, receiving_application := ra,
                    receiving_facility := rf, charset := cs, country_code := cc,
                    processing_id := pid, include_msh := false },
        segments := [{ segment_id := "AAA".data, fields := fa },
                     { segment_id := "BBB".data, fields := fb },
                     { segment_id := "CCC".data, fields := fc }],
        message_control_id := cid, now_str := now } =
      HL7Segment.build { segment_id := "AAA".data, fields := fa } ++
        SEGMENT_DELIMITER ::
          (HL7Segment.build { segment_id := "BBB".data, fields := fb } ++
            SEGMENT_DELIMITER ::
              HL7Segment.build { segment_id := "CCC".data, fields := fc }) := by
  unfold build_message build_segments
  rw [if_neg (by simp)]
  rfl

/-! ### Response reader lemmas -/

theorem safe_index_isSome (parts : List Str) (i : Nat) :
    ∃ x, safe_index parts i = some x := by
  unfold safe_index
  split
  · rename_i h
    exact get?_lt _ _ h
  · exact ⟨[], rfl⟩

theorem parse_step_not_msa (r : ParseResult) (line : Str)
    (h : startsWith "MSA".data line = false) :
    ∃ r2, parse_step r line = some r2 ∧ r2.status = r.status ∧
      r2.segments = r.segments ++ [line.take 3] := by
  simp only [parse_step]
  by_cases hmsh : startsWith "MSH".data line = true
  · rw [if_pos hmsh]
    obtain ⟨mt, hmt⟩ := safe_index_isSome (splitChar field_separator line) 8
    obtain ⟨mc, hmc⟩ := safe_index_isSome (splitChar field_separator line) 9
    rw [hmt, hmc]
    exact ⟨_, rfl, rfl, rfl⟩
  · rw [if_neg hmsh, if_neg (by simp [h])]
    exact ⟨_, rfl, rfl, rfl⟩

theorem set_status_segments (code : Str) (r : ParseResult) :
    (set_status code r).segments = r.segments := by
  unfold set_status
  split_ifs <;> rfl

theorem parse_step_total (r : ParseResult) (line : Str) :
    ∃ r2, parse_step r line = some r2 ∧ r2.segments = r.segments ++ [line.take 3] := by
  by_cases hmsa : startsWith "MSA".data line = true
  · simp only [parse_step]
    by_cases hmsh : startsWith "MSH".data line = true
    · rw [if_pos hmsh]
      obtain ⟨mt, hmt⟩ := safe_index_isSome (splitChar field_separator line) 8
      obtain ⟨mc, hmc⟩ := safe_index_isSome (splitChar field_separator line) 9
      rw [hmt, hmc]
      exact ⟨_, rfl, rfl⟩
    · rw [if_neg hmsh, if_pos hmsa]
      by_cases hlen : 2 ≤ (splitChar field_separator line).length
      · rw [if_pos hlen]
        obtain ⟨code, hcode⟩ := get?_lt (splitChar field_separator line) 1 (by omega)
        obtain ⟨m2, hm2⟩ := safe_index_isSome (splitChar field_separator line) 2
        obtain ⟨m3, hm3⟩ := safe_index_isSome (splitChar field_separator line) 3
        rw [hcode, hm2, hm3]
        refine ⟨_, rfl, ?_⟩
        show (set_status code _).segments ++ _ = _
        rw [set_status_segments]
      · rw [if_neg hlen]
        exact ⟨_, rfl, rfl⟩
  · obtain ⟨r2, h1, _, h3⟩ := parse_step_not_msa r line (by simpa using hmsa)
    exact ⟨r2, h1, h3⟩

theorem parse_step_msa_aux (r : ParseResult) (line c : Str) (tl : List Str)
    (hmsh : startsWith "MSH".data line = false)
    (hmsa : startsWith "MSA".data line = true)
    (hsplit : splitChar field_separator line = "MSA".data :: c :: tl) :
    ∃ r2, parse_step r line = some r2 ∧
      r2.status = (if c = "AA".data then "accepted".data
        else if c = "AE".data then "error".data
        else if c = "AR".data then "rejected".data
        else r.status) := by
  simp only [parse_step]
  rw [if_neg (by simp [hmsh]), if_pos hmsa, hsplit]
  rw [if_pos (by simp only [List.length_cons]; omega)]
  obtain ⟨m2, hm2⟩ := safe_index_isSome ("MSA".data :: c :: tl) 2
  obtain ⟨m3, hm3⟩ := safe_index_isSome ("MSA".data :: c :: tl) 3
  rw [show ("MSA".data :: c :: tl).get? 1 = some c from rfl, hm2, hm3]
  refine ⟨_, rfl, ?_⟩
  simp only [append_seg, set_status]
  split_ifs <;> rfl

theorem parse_step_msa (r : ParseResult) (c rest : Str)
    (hc : field_separator ∉ c)
    (hrest : rest = [] ∨ ∃ t, rest = field_separator :: t) :
    ∃ r2, parse_step r ("MSA|".data ++ (c ++ rest)) = some r2 ∧
      r2.status = (if c = "AA".data then "accepted".data
        else if c = "AE".data then "error".data
        else if c = "AR".data then "rejected".data
        else r.status) := by
  have hmsh : startsWith "MSH".data ("MSA|".data ++ (c ++ rest)) = false := rfl
  have hmsa : startsWith "MSA".data ("MSA|".data ++ (c ++ rest)) = true := rfl
  rcases hrest with hrest | ⟨t, hrest⟩
  · subst hrest
    have hsplit : splitChar field_separator ("MSA|".data ++ (c ++ [])) =
        "MSA".data :: c :: [] := by
      rw [show ("MSA|".data ++ (c ++ [])) =
        "MSA".data ++ field_separator :: (c ++ []) from rfl]
      rw [splitChar_append field_separator "MSA".data _ (by decide)]
      rw [List.append_nil, splitChar_of_not_mem field_separator c hc]
    exact parse_step_msa_aux r _ c [] hmsh hmsa hsplit
  · subst hrest
    have hsplit : splitChar field_separator ("MSA|".data ++ (c ++ field_separator :: t)) =
        "MSA".data :: c :: splitChar field_separator t := by
      rw [show ("MSA|".data ++ (c ++ field_separator :: t)) =
        "MSA".data ++ field_separator :: (c ++ field_separator :: t) from rfl]
      rw [splitChar_append field_separator "MSA".data _ (by decide)]
      rw [splitChar_append field_separator c t hc]
    exact parse_step_msa_aux r _ c _ hmsh hmsa hsplit

theorem parse_lines_total (ls : List Str) : ∀ r : ParseResult,
    ∃ r2, parse_lines r ls = some r2 ∧
      r2.segments = r.segments ++ ls.map (fun l => l.take 3) := by
  induction ls with
  | nil =>
    intro r
    exact ⟨r, rfl, by simp⟩
  | cons l t ih =>
    intro r
    obtain ⟨r1, h1, hseg1⟩ := parse_step_total r l
    obtain ⟨r2, h2, hseg2⟩ := ih r1
    refine ⟨r2, ?_, ?_⟩
    · simp only [parse_lines, h1]
      exact h2
    · rw [hseg2, hseg1]
      simp

theorem parse_lines_status (ls : List Str) :
    (∀ l ∈ ls, startsWith "MSA".data l = false) →
    ∀ (r r2 : ParseResult), parse_lines r ls = some r2 → r2.status = r.status := by
  induction ls with
  | nil =>
    intro _ r r2 h
    simp only [parse_lines] at h
    rw [← Option.some.inj h]
  | cons l t ih =>
    intro hall r r2 h
    obtain ⟨r1, h1, hst, _⟩ := parse_step_not_msa r l (hall l (by simp))
    simp only [parse_lines, h1] at h
    exact (ih (fun x hx => hall x (List.mem_cons_of_mem l hx)) r1 r2 h).trans hst

theorem parse_lines_append (xs ys : List Str) : ∀ r : ParseResult,
    parse_lines r (xs ++ ys) =
      (parse_lines r xs).bind (fun r1 => parse_lines r1 ys) := by
  induction xs with
  | nil => intro r; rfl
  | cons l t ih =>
    intro r
    simp only [List.cons_append, parse_lines]
    cases hstep : parse_step r l with
    | none => rfl
    | some r1 => exact ih r1

/-! ### Claim theorems: response reader -/

/-- C10: parse_hl7_response is total over arbitrary input: every guarded
positional access into the split parts succeeds, the function returns a
result for every string, and the segments list holds exactly one entry —
the line's first up-to-3 characters — per delimiter-split line, in order. -/
theorem parse_hl7_response_total (msg : Str) :
    ∃ r, parse_hl7_response msg = some r ∧
      r.segments = (splitChar SEGMENT_DELIMITER msg).map (fun l => l.take 3) := by
  obtain ⟨r, h1, h2⟩ := parse_lines_total (splitChar SEGMENT_DELIMITER msg) init_result
  exact ⟨r, h1, by simpa [init_result] using h2⟩

/-- C8: parse_hl7_response splits the message on the segment delimiter,
locates the MSA line, and classifies the status from its 2-character code:
AA gives accepted, AE gives error, AR gives rejected, and any other code —
or the absence of an MSA line — leaves the status unknown. -/
theorem acknowledgment_classification :
    (∀ (msg : Str) (r : ParseResult), parse_hl7_response msg = some r →
      (∀ l ∈ splitChar SEGMENT_DELIMITER msg, startsWith "MSA".data l = false) →
      r.status = "unknown".data) ∧
    (∀ (pre post : List Str) (c rest : Str) (r : ParseResult),
      (∀ l ∈ pre ++ post, startsWith "MSA".data l = false ∧ SEGMENT_DELIMITER ∉ l) →
      field_separator ∉ c → SEGMENT_DELIMITER ∉ c → SEGMENT_DELIMITER ∉ rest →
      (rest = [] ∨ ∃ t, rest = field_separator :: t) →
      parse_hl7_response
        (joinChar SEGMENT_DELIMITER (pre ++ ("MSA|".data ++ (c ++ rest)) :: post)) =
        some r →
      r.status = (if c = "AA".data then "accepted".data
        else if c = "AE".data then "error".data
        else if c = "AR".data then "rejected".data
        else "unknown".data)) := by
  constructor
  · intro msg r hparse hall
    unfold parse_hl7_response at hparse
    exact parse_lines_status _ hall _ _ hparse
  · intro pre post c rest r hall hc hcr hrr hrest hparse
    have hmsafree : SEGMENT_DELIMITER ∉ "MSA|".data ++ (c ++ rest) := by
      intro hmem
      rcases List.mem_append.mp hmem with h | h
      · revert h
        decide
      · rcases List.mem_append.mp h with h | h
        · exact hcr h
        · exact hrr h
    have hsplit : splitChar SEGMENT_DELIMITER
        (joinChar SEGMENT_DELIMITER (pre ++ ("MSA|".data ++ (c ++ rest)) :: post)) =
        pre ++ ("MSA|".data ++ (c ++ rest)) :: post := by
      apply splitChar_joinChar
      · simp
      · intro x hx
        rcases List.mem_append.mp hx with h | h
        · exact (hall x (List.mem_append.mpr (Or.inl h))).2
        · rcases List.mem_cons.mp h with h | h
          · rw [h]
            exact hmsafree
          · exact (hall x (List.mem_append.mpr (Or.inr h))).2
    unfold parse_hl7_response at hparse
    rw [hsplit, parse_lines_append] at hparse
    obtain ⟨r1, h1, _⟩ := parse_lines_total pre init_result
    have hr1 : r1.status = "unknown".data :=
      parse_lines_status pre (fun l hl => (hall l (List.mem_append.mpr (Or.inl hl))).1)
        init_result r1 h1
    rw [h1, Option.some_bind] at hparse
    obtain ⟨r2, hstep, hst⟩ := parse_step_msa r1 c rest hc hrest
    simp only [parse_lines, hstep] at hparse
    have hr : r.status = r2.status :=
      parse_lines_status post (fun l hl => (hall l (List.mem_append.mpr (Or.inr hl))).1)
        r2 r hparse
    rw [hr, hst, hr1]

/-- Witness for C8: a message consisting of the single line MSA|AA is
classified as accepted. -/
theorem acknowledgment_classification_witness :
    ({ segments := [['M', 'S', 'A']],
       acknowledgment := Option.some { code := "AA".data, message := [], control_id := [] },
       status := "accepted".data, message_type := Option.none,
       message_control_id := Option.none } : ParseResult).status =
      (if ("AA".data : Str) = "AA".data then "accepted".data
       else if ("AA".data : Str) = "AE".data then "error".data
       else if ("AA".data : Str) = "AR".data then "rejected".data
       else "unknown".data) :=
  acknowledgment_classification.2 [] [] "AA".data []
    { segments := [['M', 'S', 'A']],
      acknowledgment := Option.some { code := "AA".data, message := [], control_id := [] },
      status := "accepted".data, message_type := Option.none,
      message_control_id := Option.none }
    (by simp) (by decide) (by decide) (by decide) (Or.inl rfl) (by rfl)
